import Mathlib

/-!
# app-builder: file copier (`pkg/fs/copier.go`) and icon conversion (`icons/icns-to-png.go`)

A shallow embedding of the tree-replication engine and of the icon size bookkeeping.

* Paths are kept in split form (`Path`): a rooted flag plus the list of elements between
  separators. `Clean`, `Dir`, `Join`, `IsAbs` and `Rel` follow Go's `path/filepath` on Unix.
* The file system is scripted: the source tree (`Node`) carries, for every entry, what each
  system call made on that entry returns. Every function returns an `Out`: the returned error,
  the copier state after the call and the system calls made, in order.
-/

namespace Fs

/-! ## Errors -/

/-- Error values returned by system calls. `errors.WithStack` only decorates an error with a stack
trace, so it is the identity here. -/
inductive Err where
  | exist
  | notExist
  | permission
  | crossDevice
  | rel
  | indexOutOfRange
  | other (code : Nat)
deriving DecidableEq, Repr

/-- Go `os.IsExist`. -/
def IsExist : Err → Bool
  | .exist => true
  | _ => false

/-! ## Paths (`path/filepath`, Unix) -/

/-- A path split at its separators: `"/a/b"` is `⟨true, ["a", "b"]⟩`, `"x/../y"` is
`⟨false, ["x", "..", "y"]⟩`. A cleaned path with no elements is `"/"` when rooted and `"."`
otherwise. -/
structure Path where
  isAbs : Bool
  elems : List String
deriving DecidableEq, Repr

/-- One step of `filepath.Clean`; `out` is the output buffer, last element first. -/
def cleanStep (rooted : Bool) (out : List String) (e : String) : List String :=
  if e = "" ∨ e = "." then out
  else if e = ".." then
    match out with
    | [] => if rooted then [] else [".."]
    | top :: below => if top = ".." then ".." :: top :: below else below
  else e :: out

/-- Go `filepath.Clean`. -/
def Clean (p : Path) : Path :=
  ⟨p.isAbs, (p.elems.foldl (cleanStep p.isAbs) []).reverse⟩

/-- Go `filepath.IsAbs`. -/
def IsAbs (p : Path) : Bool := p.isAbs

/-- Go `filepath.Dir`: everything up to the last separator, cleaned. -/
def Dir (p : Path) : Path := Clean ⟨p.isAbs, p.elems.dropLast⟩

/-- Go `filepath.Join dir name` for a directory and an entry name. -/
def Join (dir : Path) (name : String) : Path := Clean ⟨dir.isAbs, dir.elems ++ [name]⟩

/-- Strips the common leading elements of two element lists (the first loop of `filepath.Rel`). -/
def stripCommon : List String → List String → List String × List String
  | b :: bs, t :: ts => if t = b then stripCommon bs ts else (b :: bs, t :: ts)
  | bs, ts => (bs, ts)

/-- Go `filepath.Rel basepath targpath`: both paths are cleaned, a rooted and an unrooted path
cannot be related, the common leading elements are dropped and one `..` is emitted for every
element left of the base. `copySymlink` only asks for rooted targets; a cleaned rooted base holds
no `..` element, so the refusal on a remaining `..` is never met there. -/
def Rel (basepath targpath : Path) : Except Err Path :=
  let base := Clean basepath
  let targ := Clean targpath
  if targ = base then .ok ⟨false, ["."]⟩
  else if base.isAbs ≠ targ.isAbs then .error .rel
  else
    let rest := stripCommon base.elems targ.elems
    if rest.1.head? = some ".." then .error .rel
    else if rest.1 ≠ [] then .ok ⟨false, List.replicate rest.1.length ".." ++ rest.2⟩
    else .ok ⟨false, rest.2⟩

/-- Where the content `link` of a symbolic link placed in directory `dir` points, lexically:
an absolute content stands for itself, a relative one is joined to `dir`. -/
def resolveLink (dir link : Path) : Path :=
  if link.isAbs then Clean link else Clean ⟨dir.isAbs, dir.elems ++ link.elems⟩

/-! ## Copier state, events, scripted source tree -/

structure LinkInfo where
  File : Path
  Link : Path
deriving DecidableEq, Repr

structure FileCopier where
  IsUseHardLinks : Bool
  links : List LinkInfo
deriving DecidableEq, Repr

/-- System calls made by the copier, with their arguments. -/
inductive Event where
  | lstat (path : Path)
  | ensureDir (path : Path)
  | mkdir (path : Path)
  | chmod (path : Path) (perm : Nat)
  | readDir (path : Path)
  | readlink (path : Path)
  | link (src dst : Path)
  | copyFile (src dst : Path)
  | symlink (content file : Path)
deriving DecidableEq, Repr

def Event.isSymlink : Event → Bool
  | .symlink _ _ => true
  | _ => false

def Event.isLink : Event → Bool
  | .link _ _ => true
  | _ => false

def Event.isCopyFile : Event → Bool
  | .copyFile _ _ => true
  | _ => false

/-- What the three system calls of `CopyFile` return on one regular file: `os.Link`,
`fsutil.EnsureDir` on the parent of the destination, `fsutil.CopyFile`. `none` is success. -/
structure FileCalls where
  link : Option Err
  ensure : Option Err
  copy : Option Err
deriving DecidableEq, Repr

mutual
/-- The source entry as `os.Lstat` classifies it, with the results of the system calls the
copier makes on it. -/
inductive Node where
  /-- Lstat fails. -/
  | absent (e : Err)
  /-- A directory with file mode `mode`: `mk` is the result of creating the destination
  directory (`fsutil.EnsureDir` or `os.Mkdir`), `chmod` the result of `os.Chmod` on it. -/
  | dir (mode : Nat) (mk : Option Err) (chmod : Option Err) (listing : Listing)
  /-- A symbolic link; `target` is the result of `os.Readlink`. -/
  | symlink (target : Except Err Path)
  /-- Any other entry. -/
  | file (calls : FileCalls)
/-- Result of `fsutil.ReadDirContent` on a directory. -/
inductive Listing where
  | fail (e : Err)
  | names (entries : Entries)
/-- Directory entries in listing order. -/
inductive Entries where
  | nil
  | cons (name : String) (node : Node) (rest : Entries)
end

def Entries.toList : Entries → List (String × Node)
  | .nil => []
  | .cons name node rest => (name, node) :: rest.toList

/-- Result of a call: returned error (`none` is Go `nil`), copier state afterwards, system
calls made. -/
structure Out where
  err : Option Err
  t : FileCopier
  events : List Event
deriving DecidableEq, Repr

/-! ## `copier.go` -/

/-- Go `SetDirPermsIfNeed`; `chmod` is what `os.Chmod` returns if called. -/
def SetDirPermsIfNeed (dir : Path) (mode : Nat) (chmod : Option Err) : Option Err × List Event :=
  let perm := mode &&& 0o777
  if perm ≠ 0o755 then (chmod, [Event.chmod dir perm]) else (none, [])

/-- Go `FileCopier.CopyFile`. -/
def CopyFile (t : FileCopier) (src dst : Path) (isCreateParentDirs : Bool) (calls : FileCalls) :
    Out :=
  let fallback (t : FileCopier) (done : List Event) : Out :=
    if isCreateParentDirs then
      match calls.ensure with
      | some e => ⟨some e, t, done ++ [Event.ensureDir (Dir dst)]⟩
      | none => ⟨calls.copy, t, done ++ [Event.ensureDir (Dir dst), Event.copyFile src dst]⟩
    else ⟨calls.copy, t, done ++ [Event.copyFile src dst]⟩
  if t.IsUseHardLinks then
    match calls.link with
    | none => ⟨none, t, [Event.link src dst]⟩
    | some _ => fallback { t with IsUseHardLinks := false } [Event.link src dst]
  else fallback t []

/-- Go `FileCopier.copySymlink`. -/
def copySymlink (t : FileCopier) (src dst : Path) (target : Except Err Path) : Out :=
  match target with
  | .error e => ⟨some e, t, [Event.readlink src]⟩
  | .ok link =>
    if IsAbs link then
      match Rel (Dir src) link with
      | .error e => ⟨some e, t, [Event.readlink src]⟩
      | .ok rel => ⟨none, { t with links := t.links ++ [⟨dst, rel⟩] }, [Event.readlink src]⟩
    else ⟨none, { t with links := t.links ++ [⟨dst, link⟩] }, [Event.readlink src]⟩

mutual
/-- Go `FileCopier.copyDirOrFile`. In the directory branch the result of creating the directory
is assigned to `err` and then overwritten by the result of `SetDirPermsIfNeed`, so the later test
`err != nil && !os.IsExist(err)` only ever sees `nil`. -/
def copyDirOrFile (t : FileCopier) (src dst : Path) (isCreateParentDirs : Bool) : Node → Out
  | .absent e => ⟨some e, t, [Event.lstat src]⟩
  | .dir mode _mk chmod listing =>
    let create := if isCreateParentDirs then Event.ensureDir dst else Event.mkdir dst
    -- `err = fsutil.EnsureDir(to)` or `err = os.Mkdir(to, 0777)`: the value `_mk` is dropped by
    -- the next assignment `err = SetDirPermsIfNeed(to, fromInfo.Mode())`
    let perms := SetDirPermsIfNeed dst mode chmod
    match perms.1 with
    | some e => ⟨some e, t, [Event.lstat src, create] ++ perms.2⟩
    | none =>
      -- `err` is nil here, so `if err != nil && !os.IsExist(err)` never returns
      let r := copyDir t src dst listing
      ⟨r.err, r.t, [Event.lstat src, create] ++ perms.2 ++ r.events⟩
  | .symlink target =>
    let r := copySymlink t src dst target
    ⟨r.err, r.t, Event.lstat src :: r.events⟩
  | .file calls =>
    let r := CopyFile t src dst isCreateParentDirs calls
    ⟨r.err, r.t, Event.lstat src :: r.events⟩
/-- Go `FileCopier.copyDir`. -/
def copyDir (t : FileCopier) (src dst : Path) : Listing → Out
  | .fail e => ⟨some e, t, [Event.readDir src]⟩
  | .names entries =>
    let r := copyDirLoop t src dst entries
    ⟨r.err, r.t, Event.readDir src :: r.events⟩
/-- The `for _, name := range fileNames` loop of `copyDir`. -/
def copyDirLoop (t : FileCopier) (src dst : Path) : Entries → Out
  | .nil => ⟨none, t, []⟩
  | .cons name node rest =>
    if name = ".DS_Store" then copyDirLoop t src dst rest
    else
      let r := copyDirOrFile t (Join src name) (Join dst name) false node
      match r.err with
      | some e => ⟨some e, r.t, r.events⟩
      | none =>
        let r2 := copyDirLoop r.t src dst rest
        ⟨r2.err, r2.t, r.events ++ r2.events⟩
end

/-! ## Link creation -/

/-- A task built by `CreateLinks`: given what `os.Symlink` does for this task, the task returns
an error and the system calls it made. -/
abbrev Task := (Path → Path → Option Err) → Option Err × List Event

/-- Modelled from the spec: the run of `util.MapAsync` (§4.1) over the tasks
`i, i+1, ..., i+remaining-1`, see `MapAsync`. -/
def MapAsync.run (taskProducer : Nat → Except Err Task) (sys : Nat → Path → Path → Option Err) :
    (remaining : Nat) → (i : Nat) → Option Err × List Event
  | 0, _ => (none, [])
  | n + 1, i =>
    match taskProducer i with
    | .error e => (some e, [])
    | .ok task =>
      let r := task (sys i)
      let rs := MapAsync.run taskProducer sys n (i + 1)
      (r.1 <|> rs.1, r.2 ++ rs.2)

/-- Modelled from the spec: `util.MapAsync` (package `pkg/util`, the bounded task executor of
§4.1, not among the sources). The factory is invoked once per index in `[0, taskCount)`, in index
order; every dispatched task runs to completion whatever the others return; the call fails when
at least one task failed and surfaces one failure, here the one of lowest index. The system calls
of the tasks are listed in index order, one admissible schedule. `sys i` is what `os.Symlink`
does for task `i`. An error of the factory is returned at once. -/
def MapAsync (taskCount : Nat) (taskProducer : Nat → Except Err Task)
    (sys : Nat → Path → Path → Option Err) : Option Err × List Event :=
  MapAsync.run taskProducer sys taskCount 0

/-- The task factory passed by `CreateLinks` to `util.MapAsync`: `links[taskIndex]` is read when
the task is built; the task calls `os.Symlink(linkInfo.Link, linkInfo.File)` once and returns
its error. -/
def CreateLinks.taskProducer (links : List LinkInfo) (taskIndex : Nat) : Except Err Task :=
  match links[taskIndex]? with
  | none => .error .indexOutOfRange
  | some linkInfo =>
    .ok (fun symlink =>
      (symlink linkInfo.Link linkInfo.File, [Event.symlink linkInfo.Link linkInfo.File]))

/-- Go `CreateLinks`. -/
def CreateLinks (links : List LinkInfo) (sys : Nat → Path → Path → Option Err) :
    Option Err × List Event :=
  MapAsync links.length (CreateLinks.taskProducer links) sys

/-- Go `(*FileCopier).CopyDirOrFile`; `goos` is `runtime.GOOS`. A nil slice is the empty list. -/
def FileCopier.CopyDirOrFile (goos : String) (t : FileCopier) (src dst : Path) (node : Node)
    (sys : Nat → Path → Path → Option Err) : Out :=
  let t := if goos = "windows" then { t with IsUseHardLinks := false } else t
  let r := copyDirOrFile t src dst true node
  match r.err with
  | some e => ⟨some e, r.t, r.events⟩
  | none =>
    if r.t.links ≠ [] then
      let c := CreateLinks r.t.links sys
      match c.1 with
      | some e => ⟨some e, r.t, r.events ++ c.2⟩
      | none => ⟨none, { r.t with links := [] }, r.events ++ c.2⟩
    else ⟨none, r.t, r.events⟩

/-- Go `CopyUsingHardlink`. -/
def CopyUsingHardlink (goos : String) (src dst : Path) (node : Node)
    (sys : Nat → Path → Path → Option Err) : Out :=
  FileCopier.CopyDirOrFile goos ⟨true, []⟩ src dst node sys

/-- Go `CopyDirOrFile` (package level). -/
def CopyDirOrFile (goos : String) (src dst : Path) (node : Node)
    (sys : Nat → Path → Path → Option Err) : Out :=
  FileCopier.CopyDirOrFile goos ⟨false, []⟩ src dst node sys

/-- The reading of `copyDir` in the specification: `copyDirOrFile` is called on each given
(source, destination, entry) triple in order, with `isCreateParentDirs = false`, and the first
failure ends the sequence. -/
def copySequence (t : FileCopier) : List (Path × Path × Node) → Out
  | [] => ⟨none, t, []⟩
  | (s, d, node) :: rest =>
    let r := copyDirOrFile t s d false node
    match r.err with
    | some e => ⟨some e, r.t, r.events⟩
    | none =>
      let r2 := copySequence r.t rest
      ⟨r2.err, r2.t, r.events ++ r2.events⟩

/-- One call `t.CopyFile(from, to, isCreateParentDirs, fromInfo)` with what its system calls
return. -/
structure FileCall where
  src : Path
  dst : Path
  isCreateParentDirs : Bool
  calls : FileCalls
deriving DecidableEq, Repr

/-- A sequence of `CopyFile` calls on one copier: the outcome of every call, in order. -/
def copyFiles (t : FileCopier) : List FileCall → List Out
  | [] => []
  | c :: cs =>
    let r := CopyFile t c.src c.dst c.isCreateParentDirs c.calls
    r :: copyFiles r.t cs

/-- An element that `filepath.Clean` keeps as it is. -/
def normalElem (e : String) : Prop := e ≠ "" ∧ e ≠ "." ∧ e ≠ ".."

end Fs

/-! ## `icns-to-png.go` -/

namespace Icons

open Fs

structure Icns2PngMapping where
  Id : String
  Size : Int
deriving DecidableEq, Repr

def icns2PngMappingList : List Icns2PngMapping :=
  [⟨"is32", 16⟩, ⟨"il32", 32⟩, ⟨"ih32", 48⟩, ⟨"icp6", 64⟩, ⟨"it32", 128⟩, ⟨"ic08", 256⟩,
    ⟨"ic09", 512⟩]

structure IconInfo where
  File : Path
  Size : Int
deriving DecidableEq, Repr

/-- The empty string as a path (the zero value of `maxIconPath`). -/
def emptyPath : Path := ⟨false, [""]⟩

/-- The variables of `ConvertIcnsToPng` that the mapping loops update. -/
structure MappingState where
  maxIconPath : Path
  maxSize : Int
  result : List IconInfo
  sizeList : List Int
deriving DecidableEq, Repr

/-- Go `contains`, on the names of the listed files. -/
def contains : List String → String → Bool
  | [], _ => false
  | fileName :: files, name => if fileName = name then true else contains files name

/-- Whether `sub` starts the character list `s`. -/
def startsWith : List Char → List Char → Bool
  | _, [] => true
  | [], _ :: _ => false
  | c :: s, d :: sub => c = d && startsWith s sub

/-- Go `strings.Contains`, on character lists. -/
def containsChars (sub : List Char) : List Char → Bool
  | [] => startsWith [] sub
  | c :: s => startsWith (c :: s) sub || containsChars sub s

/-- Go `strings.Contains`. -/
def stringsContains (s sub : String) : Bool := containsChars sub.data s.data

/-- Go `fmt.Sprintf("icon_%dx%d.png", size, size)`. -/
def iconutilName (size : Int) : String :=
  "icon_" ++ toString size ++ "x" ++ toString size ++ ".png"

/-- Go `fmt.Sprintf("%s_%dx%dx32.png", namePrefix, size, size)`. -/
def icns2pngName (namePrefix : String) (size : Int) : String :=
  namePrefix ++ "_" ++ toString size ++ "x" ++ toString size ++ "x32.png"

/-- The body of the loop `for _, item := range icns2PngMappingList` of `ConvertIcnsToPng`; the
two branches run the same loop and differ in the test `found` and in the file `path` of an
item. -/
def mappingStep (found : Icns2PngMapping → Bool) (path : Icns2PngMapping → Path)
    (st : MappingState) (item : Icns2PngMapping) : MappingState :=
  if found item then
    { maxIconPath := path item, maxSize := item.Size,
      result := st.result ++ [⟨path item, item.Size⟩], sizeList := st.sizeList }
  else { st with sizeList := st.sizeList ++ [item.Size] }

/-- The mapping loop of `ConvertIcnsToPng` from the initial values: `sizeList` is `[24, 96]`,
`maxSize` is 0, `maxIconPath` and `result` are empty. -/
def mappingLoop (found : Icns2PngMapping → Bool) (path : Icns2PngMapping → Path) : MappingState :=
  icns2PngMappingList.foldl (mappingStep found path) ⟨emptyPath, 0, [], [24, 96]⟩

/-- The state of `ConvertIcnsToPng` when it calls `multiResizeImage`, the converter having run
without error: `forceEnv` is `os.Getenv("FORCE_ICNS2PNG")`, `iconFiles` the names `ioutil.ReadDir`
lists in `tempDir` after `iconutil`, `output` the output of `icns2png`, `namePrefix` the base name
of the input file without its extension. -/
def ConvertIcnsToPng.mapping (goos forceEnv : String) (tempDir : Path) (namePrefix : String)
    (iconFiles : List String) (output : String) : MappingState :=
  if goos = "darwin" ∧ forceEnv = "" then
    mappingLoop (fun item => contains iconFiles (iconutilName item.Size))
      (fun item => Join tempDir (iconutilName item.Size))
  else
    mappingLoop (fun item => stringsContains output item.Id)
      (fun item => Join tempDir (icns2pngName namePrefix item.Size))

/-- Go `sync.WaitGroup`: the counter. -/
structure WaitGroup where
  counter : Int
deriving DecidableEq, Repr

def WaitGroup.Add (w : WaitGroup) (delta : Int) : WaitGroup := ⟨w.counter + delta⟩

def WaitGroup.Done (w : WaitGroup) : WaitGroup := w.Add (-1)

/-- Go `resizeImage`: whatever `saveImage` returns, the deferred `waitGroup.Done()` runs once. -/
def resizeImage (save : Option Err) (waitGroup : WaitGroup) : Option Err × WaitGroup :=
  (save, waitGroup.Done)

/-- The `for` loop of `multiResizeImage`: the result list and the sizes for which
`go resizeImage` was started; `break` at the first size above `maxSize`. -/
def multiResizeImage.loop (outFileNameFormat : Int → Int → Path) (maxSize : Int) :
    List Int → List IconInfo → List IconInfo × List Int
  | [], result => (result, [])
  | size :: rest, result =>
    if size > maxSize then (result, [])
    else
      let r := multiResizeImage.loop outFileNameFormat maxSize rest
        (result ++ [⟨outFileNameFormat size size, size⟩])
      (r.1, size :: r.2)

/-- How a call of `multiResizeImage` ends: it returns, or `waitGroup.Wait()` blocks for ever
because the counter stays at `counter > 0` once every started goroutine has finished. -/
inductive ResizeOutcome where
  | returned (err : Option Err) (result : List IconInfo)
  | blocked (counter : Int) (result : List IconInfo)
deriving DecidableEq, Repr

/-- Go `multiResizeImage`. `load` is what `LoadImage` returns, `save size` what `saveImage`
returns in the goroutine for `size`; `outFileNameFormat w h` is
`fmt.Sprintf(outFileNameFormat, w, h)`. `Wait` returns when the counter, after the `Done` of
every started goroutine, is zero. -/
def multiResizeImage (load : Option Err) (save : Int → Option Err)
    (outFileNameFormat : Int → Int → Path) (result : List IconInfo) (sizeList : List Int)
    (maxSize : Int) : ResizeOutcome :=
  match load with
  | some e => .returned (some e) result
  | none =>
    let imageCount : Int := sizeList.length
    let waitGroup := WaitGroup.Add ⟨0⟩ imageCount
    let r := multiResizeImage.loop outFileNameFormat maxSize sizeList result
    let waitGroup := r.2.foldl (fun w size => (resizeImage (save size) w).2) waitGroup
    if waitGroup.counter = 0 then .returned none r.1 else .blocked waitGroup.counter r.1

end Icons

/-! # Theorems -/

namespace Fs

/-! ## Traversal invariants -/

theorem SetDirPermsIfNeed_events (dir : Path) (mode : Nat) (chmod : Option Err) :
    ∀ e ∈ (SetDirPermsIfNeed dir mode chmod).2, e.isSymlink = false ∧ e.isLink = false := by
  unfold SetDirPermsIfNeed
  by_cases h : mode &&& 0o777 = 0o755 <;> simp [h, Event.isSymlink, Event.isLink]

theorem CopyFile_noSymlink (t : FileCopier) (src dst : Path) (b : Bool) (calls : FileCalls) :
    ∀ e ∈ (CopyFile t src dst b calls).events, e.isSymlink = false := by
  unfold CopyFile
  cases ht : t.IsUseHardLinks <;> cases b <;> cases hl : calls.link <;> cases hn : calls.ensure <;>
    simp [Event.isSymlink]

theorem copySymlink_noSymlink (t : FileCopier) (src dst : Path) (target : Except Err Path) :
    ∀ e ∈ (copySymlink t src dst target).events, e.isSymlink = false := by
  intro e he
  unfold copySymlink at he
  split at he
  · simp at he; subst he; rfl
  · split at he
    · split at he <;> (simp at he; subst he; rfl)
    · simp at he; subst he; rfl

mutual
theorem copyDirOrFile_noSymlink : ∀ (node : Node) (t : FileCopier) (src dst : Path) (b : Bool),
    ∀ e ∈ (copyDirOrFile t src dst b node).events, e.isSymlink = false
  | .absent _, t, src, dst, b => by
    simp [copyDirOrFile, Event.isSymlink]
  | .dir mode mk chmod listing, t, src, dst, b => by
    intro e he
    have hp := SetDirPermsIfNeed_events dst mode chmod
    have hd := copyDir_noSymlink listing t src dst
    cases hs : (SetDirPermsIfNeed dst mode chmod).1 <;> simp [copyDirOrFile, hs] at he
    · rcases he with he | he | he | he
      · subst he; rfl
      · subst he; cases b <;> rfl
      · exact (hp e he).1
      · exact hd e he
    · rcases he with he | he | he
      · subst he; rfl
      · subst he; cases b <;> rfl
      · exact (hp e he).1
  | .symlink target, t, src, dst, b => by
    intro e he
    simp [copyDirOrFile] at he
    rcases he with he | he
    · subst he; rfl
    · exact copySymlink_noSymlink t src dst target e he
  | .file calls, t, src, dst, b => by
    intro e he
    simp [copyDirOrFile] at he
    rcases he with he | he
    · subst he; rfl
    · exact CopyFile_noSymlink t src dst b calls e he
theorem copyDir_noSymlink : ∀ (listing : Listing) (t : FileCopier) (src dst : Path),
    ∀ e ∈ (copyDir t src dst listing).events, e.isSymlink = false
  | .fail _, t, src, dst => by
    simp [copyDir, Event.isSymlink]
  | .names entries, t, src, dst => by
    intro e he
    simp [copyDir] at he
    rcases he with he | he
    · subst he; rfl
    · exact copyDirLoop_noSymlink entries t src dst e he
theorem copyDirLoop_noSymlink : ∀ (entries : Entries) (t : FileCopier) (src dst : Path),
    ∀ e ∈ (copyDirLoop t src dst entries).events, e.isSymlink = false
  | .nil, t, src, dst => by
    simp [copyDirLoop]
  | .cons name node rest, t, src, dst => by
    intro e he
    have h1 := copyDirOrFile_noSymlink node t (Join src name) (Join dst name) false
    by_cases hn : name = ".DS_Store"
    · simp [copyDirLoop, hn] at he
      exact copyDirLoop_noSymlink rest t src dst e he
    · cases hr : (copyDirOrFile t (Join src name) (Join dst name) false node).err <;>
        simp [copyDirLoop, hn, hr] at he
      · rcases he with he | he
        · exact h1 e he
        · exact copyDirLoop_noSymlink rest _ src dst e he
      · exact h1 e he
end

theorem CopyFile_flagOff (t : FileCopier) (src dst : Path) (b : Bool) (calls : FileCalls)
    (h : t.IsUseHardLinks = false) :
    (CopyFile t src dst b calls).t.IsUseHardLinks = false ∧
      ∀ e ∈ (CopyFile t src dst b calls).events, e.isLink = false := by
  unfold CopyFile
  cases b <;> cases hn : calls.ensure <;> simp [h, Event.isLink]

theorem copySymlink_flag (t : FileCopier) (src dst : Path) (target : Except Err Path) :
    (copySymlink t src dst target).t.IsUseHardLinks = t.IsUseHardLinks ∧
      ∀ e ∈ (copySymlink t src dst target).events, e.isLink = false := by
  unfold copySymlink
  cases target with
  | error e => simp [Event.isLink]
  | ok link =>
    by_cases ha : IsAbs link = true
    · cases hr : Rel (Dir src) link <;> simp [ha, hr, Event.isLink]
    · simp [ha, Event.isLink]

mutual
theorem copyDirOrFile_flagOff : ∀ (node : Node) (t : FileCopier) (src dst : Path) (b : Bool),
    t.IsUseHardLinks = false →
    (copyDirOrFile t src dst b node).t.IsUseHardLinks = false ∧
      ∀ e ∈ (copyDirOrFile t src dst b node).events, e.isLink = false
  | .absent _, t, src, dst, b => by
    intro h
    simp [copyDirOrFile, Event.isLink, h]
  | .dir mode mk chmod listing, t, src, dst, b => by
    intro h
    have hp := SetDirPermsIfNeed_events dst mode chmod
    have hd := copyDir_flagOff listing t src dst h
    cases hs : (SetDirPermsIfNeed dst mode chmod).1
    · simp only [copyDirOrFile, hs]
      refine ⟨hd.1, ?_⟩
      intro e he
      simp at he
      rcases he with he | he | he | he
      · subst he; rfl
      · subst he; cases b <;> rfl
      · exact (hp e he).2
      · exact hd.2 e he
    · simp only [copyDirOrFile, hs]
      refine ⟨h, ?_⟩
      intro e he
      simp at he
      rcases he with he | he | he
      · subst he; rfl
      · subst he; cases b <;> rfl
      · exact (hp e he).2
  | .symlink target, t, src, dst, b => by
    intro h
    have hs := copySymlink_flag t src dst target
    simp only [copyDirOrFile]
    refine ⟨hs.1.trans h, ?_⟩
    intro e he
    simp at he
    rcases he with he | he
    · subst he; rfl
    · exact hs.2 e he
  | .file calls, t, src, dst, b => by
    intro h
    have hs := CopyFile_flagOff t src dst b calls h
    simp only [copyDirOrFile]
    refine ⟨hs.1, ?_⟩
    intro e he
    simp at he
    rcases he with he | he
    · subst he; rfl
    · exact hs.2 e he
theorem copyDir_flagOff : ∀ (listing : Listing) (t : FileCopier) (src dst : Path),
    t.IsUseHardLinks = false →
    (copyDir t src dst listing).t.IsUseHardLinks = false ∧
      ∀ e ∈ (copyDir t src dst listing).events, e.isLink = false
  | .fail _, t, src, dst => by
    intro h
    simp [copyDir, Event.isLink, h]
  | .names entries, t, src, dst => by
    intro h
    have hl := copyDirLoop_flagOff entries t src dst h
    simp only [copyDir]
    refine ⟨hl.1, ?_⟩
    intro e he
    simp at he
    rcases he with he | he
    · subst he; rfl
    · exact hl.2 e he
theorem copyDirLoop_flagOff : ∀ (entries : Entries) (t : FileCopier) (src dst : Path),
    t.IsUseHardLinks = false →
    (copyDirLoop t src dst entries).t.IsUseHardLinks = false ∧
      ∀ e ∈ (copyDirLoop t src dst entries).events, e.isLink = false
  | .nil, t, src, dst => by
    intro h
    simp [copyDirLoop, h]
  | .cons name node rest, t, src, dst => by
    intro h
    have h1 := copyDirOrFile_flagOff node t (Join src name) (Join dst name) false h
    by_cases hn : name = ".DS_Store"
    · simp only [copyDirLoop, hn, if_true]
      exact copyDirLoop_flagOff rest t src dst h
    · cases hr : (copyDirOrFile t (Join src name) (Join dst name) false node).err
      · have h2 := copyDirLoop_flagOff rest _ src dst h1.1
        simp only [copyDirLoop, hn, if_false, hr]
        refine ⟨h2.1, ?_⟩
        intro e he
        simp at he
        rcases he with he | he
        · exact h1.2 e he
        · exact h2.2 e he
      · simp only [copyDirLoop, hn, if_false, hr]
        exact h1
end

theorem MapAsync_run_CreateLinks_events (links : List LinkInfo)
    (sys : Nat → Path → Path → Option Err) : ∀ (n i : Nat),
    ∀ e ∈ (MapAsync.run (CreateLinks.taskProducer links) sys n i).2,
      e.isSymlink = true ∧ e.isLink = false
  | 0, _ => by simp [MapAsync.run]
  | n + 1, i => by
    intro e he
    have ih := MapAsync_run_CreateLinks_events links sys n (i + 1)
    unfold MapAsync.run at he
    cases hg : links[i]? with
    | none => simp [CreateLinks.taskProducer, hg] at he
    | some li =>
      simp [CreateLinks.taskProducer, hg] at he
      rcases he with he | he
      · subst he; exact ⟨rfl, rfl⟩
      · exact ih e he

theorem CreateLinks_events (links : List LinkInfo) (sys : Nat → Path → Path → Option Err) :
    ∀ e ∈ (CreateLinks links sys).2, e.isSymlink = true ∧ e.isLink = false :=
  MapAsync_run_CreateLinks_events links sys links.length 0

/-- The two phases of `FileCopier.CopyDirOrFile`: the system calls of the operation are those of
the traversal from the platform-adjusted state followed by those of `CreateLinks`, which runs
only when the traversal returned nil; the flag is the one the traversal left. -/
theorem CopyDirOrFile_phases (goos : String) (t : FileCopier) (src dst : Path) (node : Node)
    (sys : Nat → Path → Path → Option Err) :
    ∃ created : List Event,
      (FileCopier.CopyDirOrFile goos t src dst node sys).events =
        (copyDirOrFile (if goos = "windows" then { t with IsUseHardLinks := false } else t)
          src dst true node).events ++ created ∧
      (∀ e ∈ created, e.isSymlink = true ∧ e.isLink = false) ∧
      ((copyDirOrFile (if goos = "windows" then { t with IsUseHardLinks := false } else t)
          src dst true node).err ≠ none →
        created = [] ∧
        (FileCopier.CopyDirOrFile goos t src dst node sys).err =
          (copyDirOrFile (if goos = "windows" then { t with IsUseHardLinks := false } else t)
            src dst true node).err) ∧
      (FileCopier.CopyDirOrFile goos t src dst node sys).t.IsUseHardLinks =
        (copyDirOrFile (if goos = "windows" then { t with IsUseHardLinks := false } else t)
          src dst true node).t.IsUseHardLinks := by
  generalize ht0 : (if goos = "windows" then { t with IsUseHardLinks := false } else t) = t0
  cases hr : (copyDirOrFile t0 src dst true node).err with
  | some e =>
    refine ⟨[], ?_, ?_, ?_, ?_⟩ <;> simp [FileCopier.CopyDirOrFile, ht0, hr]
  | none =>
    by_cases hl : (copyDirOrFile t0 src dst true node).t.links = []
    · refine ⟨[], ?_, ?_, ?_, ?_⟩ <;> simp [FileCopier.CopyDirOrFile, ht0, hr, hl]
    · have hc := CreateLinks_events (copyDirOrFile t0 src dst true node).t.links sys
      refine ⟨(CreateLinks (copyDirOrFile t0 src dst true node).t.links sys).2, ?_, hc, ?_, ?_⟩
      · cases hcl : (CreateLinks (copyDirOrFile t0 src dst true node).t.links sys).1 <;>
          simp [FileCopier.CopyDirOrFile, ht0, hr, hl, hcl]
      · simp
      · cases hcl : (CreateLinks (copyDirOrFile t0 src dst true node).t.links sys).1 <;>
          simp [FileCopier.CopyDirOrFile, ht0, hr, hl, hcl]

/-! ## Claims on the copier -/

/-- C4: in every run of `FileCopier.CopyDirOrFile` the traversal makes no symlink-creation call;
the system calls of the run are those of the traversal followed by symlink creations, and there
are none of the latter when the traversal returned an error (the traversal's error is then the
result). During traversal a symbolic link makes no symlink-creation call, leaves the hardlink flag
alone and appends exactly one `LinkInfo` (for the destination path) when it returns nil, none when
it fails. -/
theorem C4_symlinks_created_only_after_traversal (goos : String) (t : FileCopier)
    (src dst : Path) (node : Node) (sys : Nat → Path → Path → Option Err) :
    (∀ e ∈ (copyDirOrFile (if goos = "windows" then { t with IsUseHardLinks := false } else t)
        src dst true node).events, e.isSymlink = false) ∧
    (∃ created : List Event,
      (FileCopier.CopyDirOrFile goos t src dst node sys).events =
        (copyDirOrFile (if goos = "windows" then { t with IsUseHardLinks := false } else t)
          src dst true node).events ++ created ∧
      (∀ e ∈ created, e.isSymlink = true) ∧
      ((copyDirOrFile (if goos = "windows" then { t with IsUseHardLinks := false } else t)
          src dst true node).err ≠ none →
        created = [] ∧
        (FileCopier.CopyDirOrFile goos t src dst node sys).err =
          (copyDirOrFile (if goos = "windows" then { t with IsUseHardLinks := false } else t)
            src dst true node).err)) ∧
    (∀ (q : FileCopier) (s d : Path) (b : Bool) (target : Except Err Path),
      (∀ e ∈ (copyDirOrFile q s d b (.symlink target)).events, e.isSymlink = false) ∧
      (copyDirOrFile q s d b (.symlink target)).t.IsUseHardLinks = q.IsUseHardLinks ∧
      (((copyDirOrFile q s d b (.symlink target)).err = none ∧
          ∃ l : Path, (copyDirOrFile q s d b (.symlink target)).t.links = q.links ++ [⟨d, l⟩]) ∨
        ((copyDirOrFile q s d b (.symlink target)).err ≠ none ∧
          (copyDirOrFile q s d b (.symlink target)).t.links = q.links))) := by
  refine ⟨copyDirOrFile_noSymlink node _ src dst true, ?_, ?_⟩
  · obtain ⟨created, h1, h2, h3, _⟩ := CopyDirOrFile_phases goos t src dst node sys
    exact ⟨created, h1, fun e he => (h2 e he).1, h3⟩
  · intro q s d b target
    refine ⟨copyDirOrFile_noSymlink (.symlink target) q s d b, ?_, ?_⟩
    · simp only [copyDirOrFile]
      exact (copySymlink_flag q s d target).1
    · simp only [copyDirOrFile, copySymlink]
      cases target with
      | error e => simp
      | ok link =>
        by_cases ha : IsAbs link = true
        · cases hr : Rel (Dir s) link <;> simp [ha, hr]
        · simp [ha]

/-- C8: on Windows `FileCopier.CopyDirOrFile` behaves for every caller-supplied flag as if the
flag were false: the traversal starts from the state with the flag off, no `os.Link` call occurs
in the whole operation (also through `CopyUsingHardlink`) and the flag is false afterwards. On
any other OS the traversal starts from the caller's state unchanged. -/
theorem C8_windows_forces_hardlinks_off (t : FileCopier) (src dst : Path) (node : Node)
    (sys : Nat → Path → Path → Option Err) :
    (FileCopier.CopyDirOrFile "windows" t src dst node sys =
      FileCopier.CopyDirOrFile "windows" { t with IsUseHardLinks := false } src dst node sys) ∧
    (∃ created : List Event,
      (FileCopier.CopyDirOrFile "windows" t src dst node sys).events =
        (copyDirOrFile { t with IsUseHardLinks := false } src dst true node).events ++ created ∧
      ∀ e ∈ created, e.isSymlink = true) ∧
    (∀ e ∈ (FileCopier.CopyDirOrFile "windows" t src dst node sys).events, e.isLink = false) ∧
    (FileCopier.CopyDirOrFile "windows" t src dst node sys).t.IsUseHardLinks = false ∧
    (∀ e ∈ (CopyUsingHardlink "windows" src dst node sys).events, e.isLink = false) ∧
    (∀ goos : String, goos ≠ "windows" →
      ∃ created : List Event,
        (FileCopier.CopyDirOrFile goos t src dst node sys).events =
          (copyDirOrFile t src dst true node).events ++ created ∧
        (∀ e ∈ created, e.isSymlink = true) ∧
        (FileCopier.CopyDirOrFile goos t src dst node sys).t.IsUseHardLinks =
          (copyDirOrFile t src dst true node).t.IsUseHardLinks) := by
  have key : ∀ q : FileCopier,
      (∀ e ∈ (FileCopier.CopyDirOrFile "windows" q src dst node sys).events, e.isLink = false) ∧
      (FileCopier.CopyDirOrFile "windows" q src dst node sys).t.IsUseHardLinks = false := by
    intro q
    obtain ⟨created, h1, h2, _, h4⟩ := CopyDirOrFile_phases "windows" q src dst node sys
    simp only [if_true] at h1 h4
    have hoff := copyDirOrFile_flagOff node { q with IsUseHardLinks := false } src dst true rfl
    refine ⟨?_, h4.trans hoff.1⟩
    intro e he
    rw [h1] at he
    rcases List.mem_append.1 he with he | he
    · exact hoff.2 e he
    · exact (h2 e he).2
  refine ⟨by simp [FileCopier.CopyDirOrFile], ?_, (key t).1, (key t).2, (key ⟨true, []⟩).1, ?_⟩
  · obtain ⟨created, h1, h2, _, _⟩ := CopyDirOrFile_phases "windows" t src dst node sys
    simp only [if_true] at h1
    exact ⟨created, h1, fun e he => (h2 e he).1⟩
  · intro goos hg
    obtain ⟨created, h1, h2, _, h4⟩ := CopyDirOrFile_phases goos t src dst node sys
    simp only [hg, if_false] at h1 h4
    exact ⟨created, h1, fun e he => (h2 e he).1, h4⟩

theorem MapAsync_run_CreateLinks_calls (links : List LinkInfo)
    (sys : Nat → Path → Path → Option Err) : ∀ (n i : Nat), i + n = links.length →
    (MapAsync.run (CreateLinks.taskProducer links) sys n i).2 =
      (links.drop i).map (fun li => Event.symlink li.Link li.File)
  | 0, i => by
    intro h
    have : links.length ≤ i := by omega
    simp [MapAsync.run, List.drop_eq_nil_of_le this]
  | n + 1, i => by
    intro h
    have hi : i < links.length := by omega
    have ih := MapAsync_run_CreateLinks_calls links sys n (i + 1) (by omega)
    have hd : links.drop i = links[i] :: links.drop (i + 1) := List.drop_eq_getElem_cons hi
    have hg : links[i]? = some links[i] := List.getElem?_eq_getElem hi
    have hp : CreateLinks.taskProducer links i =
        .ok (fun symlink =>
          (symlink links[i].Link links[i].File, [Event.symlink links[i].Link links[i].File])) := by
      simp only [CreateLinks.taskProducer, hg]
    rw [MapAsync.run, hp]
    simp only [ih, hd, List.map_cons, List.singleton_append]

/-- C6: `CreateLinks` asks the executor for exactly `len(links)` tasks built by its factory; for
every index `i` in range the factory returns a task (and no error) that makes the single call
`os.Symlink(links[i].Link, links[i].File)` and returns what that call returns; the task depends on
no entry other than `links[i]`; run by the executor, the calls made are one symlink creation per
entry of `links`. -/
theorem C6_CreateLinks_one_symlink_per_entry (links : List LinkInfo)
    (sys : Nat → Path → Path → Option Err) :
    CreateLinks links sys = MapAsync links.length (CreateLinks.taskProducer links) sys ∧
    (∀ (i : Nat) (h : i < links.length),
      ∃ task : Task, CreateLinks.taskProducer links i = .ok task ∧
        ∀ symlink : Path → Path → Option Err,
          task symlink = (symlink (links.get ⟨i, h⟩).Link (links.get ⟨i, h⟩).File,
            [Event.symlink (links.get ⟨i, h⟩).Link (links.get ⟨i, h⟩).File])) ∧
    (∀ (others : List LinkInfo) (i : Nat), others[i]? = links[i]? →
      CreateLinks.taskProducer others i = CreateLinks.taskProducer links i) ∧
    (CreateLinks links sys).2 = links.map (fun li => Event.symlink li.Link li.File) ∧
    (CreateLinks links sys).2.length = links.length := by
  have hcalls : (CreateLinks links sys).2 = links.map (fun li => Event.symlink li.Link li.File) := by
    have := MapAsync_run_CreateLinks_calls links sys links.length 0 (by omega)
    simpa [CreateLinks, MapAsync] using this
  refine ⟨rfl, ?_, ?_, hcalls, by simp [hcalls]⟩
  · intro i h
    have hg : links[i]? = some links[i] := List.getElem?_eq_getElem h
    refine ⟨fun symlink =>
      (symlink links[i].Link links[i].File, [Event.symlink links[i].Link links[i].File]), ?_, ?_⟩
    · simp only [CreateLinks.taskProducer, hg]
    · intro symlink
      rfl
  · intro others i h
    simp only [CreateLinks.taskProducer, h]

theorem copyDirLoop_eq_copySequence : ∀ (entries : Entries) (t : FileCopier) (src dst : Path),
    copyDirLoop t src dst entries =
      copySequence t ((entries.toList.filter (fun p => decide (p.1 ≠ ".DS_Store"))).map
        (fun p => (Join src p.1, Join dst p.1, p.2)))
  | .nil, t, src, dst => by simp [copyDirLoop, Entries.toList, copySequence]
  | .cons name node rest, t, src, dst => by
    by_cases hn : name = ".DS_Store"
    · simp only [copyDirLoop, hn, if_true, Entries.toList]
      rw [copyDirLoop_eq_copySequence rest t src dst]
      simp
    · have hf : ((name, node) :: rest.toList).filter (fun p => decide (p.1 ≠ ".DS_Store")) =
          (name, node) :: rest.toList.filter (fun p => decide (p.1 ≠ ".DS_Store")) := by
        simp [List.filter_cons, hn]
      simp only [copyDirLoop, hn, if_false, Entries.toList, hf, List.map_cons, copySequence]
      cases hr : (copyDirOrFile t (Join src name) (Join dst name) false node).err
      · simp only [copyDirLoop_eq_copySequence rest _ src dst]
      · rfl

/-- C7: on a listing returned for `from`, `copyDir` reads the directory and then calls
`copyDirOrFile` exactly on the entries not named `.DS_Store`, in listing order, on
`Join(from, name)` and `Join(to, name)`, stopping at the first call that fails; an entry named
`.DS_Store` is skipped without any system call or error. -/
theorem C7_copyDir_skips_DS_Store_in_order (t : FileCopier) (src dst : Path) (entries : Entries) :
    copyDirLoop t src dst entries =
      copySequence t ((entries.toList.filter (fun p => decide (p.1 ≠ ".DS_Store"))).map
        (fun p => (Join src p.1, Join dst p.1, p.2))) ∧
    copyDir t src dst (.names entries) =
      ⟨(copyDirLoop t src dst entries).err, (copyDirLoop t src dst entries).t,
        Event.readDir src :: (copyDirLoop t src dst entries).events⟩ ∧
    (∀ node : Node, copyDirLoop t src dst (.cons ".DS_Store" node entries) =
      copyDirLoop t src dst entries) ∧
    (∀ (name : String) (node : Node) (e : Err), name ≠ ".DS_Store" →
      (copyDirOrFile t (Join src name) (Join dst name) false node).err = some e →
      copyDirLoop t src dst (.cons name node entries) =
        ⟨some e, (copyDirOrFile t (Join src name) (Join dst name) false node).t,
          (copyDirOrFile t (Join src name) (Join dst name) false node).events⟩) := by
  refine ⟨copyDirLoop_eq_copySequence entries t src dst, by simp [copyDir], ?_, ?_⟩
  · intro node
    simp [copyDirLoop]
  · intro name node e hn he
    simp [copyDirLoop, hn, he]

/-- C2 (evaluation of the code): an empty source directory of mode `drwxr-xr-x` whose destination
directory cannot be created (`EnsureDir` fails with a permission error): `copyDirOrFile` goes on
to read the directory and returns nil. In general the result of creating the destination
directory has no influence on what `copyDirOrFile` does. -/
theorem C2_mkdir_error_is_dropped :
    copyDirOrFile ⟨false, []⟩ ⟨true, ["src"]⟩ ⟨true, ["ro", "dst"]⟩ true
        (.dir 0o20000000755 (some .permission) none (.names .nil)) =
      ⟨none, ⟨false, []⟩,
        [Event.lstat ⟨true, ["src"]⟩, Event.ensureDir ⟨true, ["ro", "dst"]⟩,
          Event.readDir ⟨true, ["src"]⟩]⟩ ∧
    (∀ (t : FileCopier) (src dst : Path) (b : Bool) (mode : Nat) (mk chmod : Option Err)
        (listing : Listing),
      copyDirOrFile t src dst b (.dir mode mk chmod listing) =
        copyDirOrFile t src dst b (.dir mode none chmod listing)) := by
  refine ⟨by decide, ?_⟩
  intro t src dst b mode mk chmod listing
  simp only [copyDirOrFile]

/-- C1 (evaluation of the code): after a traversal that recorded a link and then failed on a
file, and after a run whose link creation failed, the copier still holds the recorded link. -/
theorem C1_links_kept_on_error :
    ((FileCopier.CopyDirOrFile "linux" ⟨false, []⟩ ⟨true, ["src"]⟩ ⟨true, ["dst"]⟩
        (.dir 0o20000000755 none none
          (.names (.cons "a" (.symlink (.ok ⟨false, ["b"]⟩))
            (.cons "b" (.file ⟨none, none, some .permission⟩) .nil))))
        (fun _ _ _ => none)).err = some .permission ∧
      (FileCopier.CopyDirOrFile "linux" ⟨false, []⟩ ⟨true, ["src"]⟩ ⟨true, ["dst"]⟩
        (.dir 0o20000000755 none none
          (.names (.cons "a" (.symlink (.ok ⟨false, ["b"]⟩))
            (.cons "b" (.file ⟨none, none, some .permission⟩) .nil))))
        (fun _ _ _ => none)).t.links = [⟨⟨true, ["dst", "a"]⟩, ⟨false, ["b"]⟩⟩]) ∧
    ((FileCopier.CopyDirOrFile "linux" ⟨false, []⟩ ⟨true, ["src"]⟩ ⟨true, ["dst"]⟩
        (.dir 0o20000000755 (some .exist) none
          (.names (.cons "a" (.symlink (.ok ⟨false, ["b"]⟩)) .nil)))
        (fun _ _ _ => some .exist)).err = some .exist ∧
      (FileCopier.CopyDirOrFile "linux" ⟨false, []⟩ ⟨true, ["src"]⟩ ⟨true, ["dst"]⟩
        (.dir 0o20000000755 (some .exist) none
          (.names (.cons "a" (.symlink (.ok ⟨false, ["b"]⟩)) .nil)))
        (fun _ _ _ => some .exist)).t.links = [⟨⟨true, ["dst", "a"]⟩, ⟨false, ["b"]⟩⟩]) := by
  decide

/-! ## Lexical path lemmas -/

theorem cleanStep_normal (r : Bool) (out : List String) (e : String) (h : normalElem e) :
    cleanStep r out e = e :: out := by
  simp [cleanStep, h.1, h.2.1, h.2.2]

theorem foldl_cleanStep_normal (r : Bool) : ∀ (xs out : List String),
    (∀ x ∈ xs, normalElem x) → xs.foldl (cleanStep r) out = xs.reverse ++ out
  | [], out, _ => by simp
  | x :: xs, out, h => by
    have hx : normalElem x := h x (List.mem_cons_self _ _)
    have ih := foldl_cleanStep_normal r xs (x :: out) (fun y hy => h y (List.mem_cons_of_mem _ hy))
    simp [List.foldl_cons, cleanStep_normal r out x hx, ih]

theorem cleanStep_rooted_normal (out : List String) (e : String)
    (h : ∀ x ∈ out, normalElem x) : ∀ x ∈ cleanStep true out e, normalElem x := by
  unfold cleanStep
  by_cases h1 : e = "" ∨ e = "."
  · simpa [h1] using h
  · by_cases h2 : e = ".."
    · cases out with
      | nil => simp [h1, h2]
      | cons top below =>
        have ht : top ≠ ".." := (h top (List.mem_cons_self _ _)).2.2
        have h1b : ¬((".." : String) = "" ∨ (".." : String) = ".") := by decide
        simp only [h2, h1b, if_false, if_true, ht]
        intro x hx
        exact h x (List.mem_cons_of_mem _ hx)
    · simp only [h1, h2, if_false]
      intro x hx
      rcases List.mem_cons.1 hx with hx | hx
      · subst hx
        exact ⟨fun h0 => h1 (Or.inl h0), fun h0 => h1 (Or.inr h0), h2⟩
      · exact h x hx

theorem foldl_rooted_normal : ∀ (xs out : List String), (∀ x ∈ out, normalElem x) →
    ∀ x ∈ xs.foldl (cleanStep true) out, normalElem x
  | [], out, h => by simpa using h
  | e :: xs, out, h => by
    simpa [List.foldl_cons] using
      foldl_rooted_normal xs (cleanStep true out e) (cleanStep_rooted_normal out e h)

theorem Clean_abs_normal (p : Path) (h : p.isAbs = true) : ∀ x ∈ (Clean p).elems, normalElem x := by
  intro x hx
  simp only [Clean, h, List.mem_reverse] at hx
  exact foldl_rooted_normal p.elems [] (by simp) x hx

theorem Clean_of_normal (p : Path) (h : ∀ x ∈ p.elems, normalElem x) : Clean p = p := by
  cases p with
  | mk a es =>
    simp only [Clean]
    rw [foldl_cleanStep_normal a es [] h]
    simp

theorem foldl_dotdots (r : Bool) : ∀ (pre out : List String), (∀ x ∈ pre, normalElem x) →
    (List.replicate pre.length "..").foldl (cleanStep r) (pre ++ out) = out
  | [], out, _ => by simp
  | x :: pre, out, h => by
    have hx : x ≠ ".." := (h x (List.mem_cons_self _ _)).2.2
    have h1b : ¬((".." : String) = "" ∨ (".." : String) = ".") := by decide
    have hstep : cleanStep r (x :: (pre ++ out)) ".." = pre ++ out := by
      simp only [cleanStep, h1b, if_false, if_true, hx]
    simp only [List.length_cons, List.replicate_succ, List.foldl_cons, List.cons_append, hstep]
    exact foldl_dotdots r pre out (fun y hy => h y (List.mem_cons_of_mem _ hy))

theorem stripCommon_spec : ∀ (b t : List String),
    ∃ c : List String, b = c ++ (stripCommon b t).1 ∧ t = c ++ (stripCommon b t).2
  | [], t => ⟨[], by simp [stripCommon]⟩
  | b :: bs, [] => ⟨[], by simp [stripCommon]⟩
  | b :: bs, t :: ts => by
    by_cases h : t = b
    · obtain ⟨c, h1, h2⟩ := stripCommon_spec bs ts
      refine ⟨b :: c, ?_, ?_⟩
      · simp only [stripCommon, h, if_true, List.cons_append]
        rw [← h1]
      · simp only [stripCommon, h, if_true, List.cons_append]
        rw [← h2]
    · exact ⟨[], by simp [stripCommon, h]⟩

/-- For a cleaned rooted base and a rooted target `Rel` succeeds, and its result is relative and
leads from the base back to the cleaned target. -/
theorem Rel_resolve (base targ : Path) (hb : base.isAbs = true) (ht : targ.isAbs = true)
    (hn : ∀ x ∈ base.elems, normalElem x) :
    ∃ l : Path, Rel base targ = .ok l ∧ l.isAbs = false ∧ resolveLink base l = Clean targ := by
  have hcb : Clean base = base := Clean_of_normal base hn
  have htn := Clean_abs_normal targ ht
  have hta : (Clean targ).isAbs = true := by simp [Clean, ht]
  have key : ∀ c r1 r2 : List String, base.elems = c ++ r1 → (Clean targ).elems = c ++ r2 →
      resolveLink base ⟨false, List.replicate r1.length ".." ++ r2⟩ = Clean targ := by
    intro c r1 r2 h1 h2
    have hc : ∀ x ∈ c, normalElem x := fun x hx => hn x (by rw [h1]; simp [hx])
    have hr1 : ∀ x ∈ r1.reverse, normalElem x :=
      fun x hx => hn x (by rw [h1]; simp [List.mem_reverse.1 hx])
    have hr2 : ∀ x ∈ r2, normalElem x := fun x hx => htn x (by rw [h2]; simp [hx])
    have e1 : (c ++ r1).foldl (cleanStep true) [] = r1.reverse ++ c.reverse := by
      rw [foldl_cleanStep_normal true (c ++ r1) [] (by rw [← h1]; exact hn)]
      simp
    have e2 : (List.replicate r1.length "..").foldl (cleanStep true) (r1.reverse ++ c.reverse) =
        c.reverse := by
      have := foldl_dotdots true r1.reverse c.reverse hr1
      simpa using this
    have e3 : r2.foldl (cleanStep true) c.reverse = r2.reverse ++ c.reverse :=
      foldl_cleanStep_normal true r2 c.reverse hr2
    have hT : Clean targ = ⟨true, c ++ r2⟩ := by
      cases hq : Clean targ with
      | mk a es =>
        rw [hq] at hta h2
        simp only at hta h2
        rw [hta, h2]
    rw [hT]
    simp only [resolveLink, Clean, hb, h1, List.foldl_append, e1, e2, e3]
    simp
  by_cases heq : Clean targ = base
  · refine ⟨⟨false, ["."]⟩, by simp [Rel, hcb, heq], rfl, ?_⟩
    rw [heq]
    have e1 := foldl_cleanStep_normal true base.elems [] hn
    have hdot : cleanStep true (base.elems.reverse ++ []) "." = base.elems.reverse ++ [] := by
      simp [cleanStep]
    cases base with
    | mk a es =>
      simp only at hb e1 hdot
      subst hb
      simp only [resolveLink, Clean, List.foldl_append, e1, List.foldl_cons, List.foldl_nil, hdot]
      simp
  · obtain ⟨c, h1, h2⟩ := stripCommon_spec base.elems (Clean targ).elems
    have hhead : (stripCommon base.elems (Clean targ).elems).1.head? ≠ some ".." := by
      intro hh
      have hmem : ".." ∈ (stripCommon base.elems (Clean targ).elems).1 := List.mem_of_mem_head? hh
      have : ".." ∈ base.elems := by rw [h1]; simp [hmem]
      exact (hn _ this).2.2 rfl
    have hres := key c _ _ h1 h2
    by_cases hne : (stripCommon base.elems (Clean targ).elems).1 = []
    · refine ⟨⟨false, (stripCommon base.elems (Clean targ).elems).2⟩, ?_, rfl, ?_⟩
      · simp [Rel, hcb, heq, hb, hta, hne]
      · simpa [hne] using hres
    · refine ⟨⟨false, List.replicate (stripCommon base.elems (Clean targ).elems).1.length ".." ++
          (stripCommon base.elems (Clean targ).elems).2⟩, ?_, rfl, hres⟩
      simp [Rel, hcb, heq, hb, hta, hne, hhead]

theorem Dir_abs_normal (p : Path) (h : p.isAbs = true) :
    (Dir p).isAbs = true ∧ ∀ x ∈ (Dir p).elems, normalElem x :=
  ⟨by simp [Dir, Clean, h], Clean_abs_normal ⟨p.isAbs, p.elems.dropLast⟩ h⟩

/-- C5 (counterexample): copying `/src` to `/out/dst`, the link `/src/l` whose target is the
absolute path `/etc/hosts` is recorded with content `../etc/hosts`; from the directory of the
destination link `/out/dst/l` that content leads to `/out/etc/hosts`, not to `/etc/hosts`. -/
theorem C5_counterexample :
    (copySymlink ⟨false, []⟩ ⟨true, ["src", "l"]⟩ ⟨true, ["out", "dst", "l"]⟩
        (.ok ⟨true, ["etc", "hosts"]⟩)).t.links =
      [⟨⟨true, ["out", "dst", "l"]⟩, ⟨false, ["..", "etc", "hosts"]⟩⟩] ∧
    resolveLink (Dir ⟨true, ["out", "dst", "l"]⟩) ⟨false, ["..", "etc", "hosts"]⟩ =
      ⟨true, ["out", "etc", "hosts"]⟩ ∧
    resolveLink (Dir ⟨true, ["out", "dst", "l"]⟩) ⟨false, ["..", "etc", "hosts"]⟩ ≠
      ⟨true, ["etc", "hosts"]⟩ := by
  decide

/-- C5 (amended): on Unix paths, for a symbolic link at `from` whose target is an absolute path
`P` and every destination `to`. When `from` is absolute, `copySymlink` returns nil after the one
call `os.Readlink(from)` and records exactly one `LinkInfo`, with `File = to` and
`Link = filepath.Rel(filepath.Dir(from), P)`; this `Link` is relative and, joined lexically to the
directory of the source link (`filepath.Join(filepath.Dir(from), Link)`, no symbolic link of the
path being followed), yields `filepath.Clean(P)`. When `from` is relative, `filepath.Rel` fails,
`copySymlink` returns that error and records nothing: the copier is unchanged. -/
theorem C5_link_is_relative_to_source_dir (t : FileCopier) (src dst P : Path)
    (hP : IsAbs P = true) :
    (IsAbs src = true →
      ∃ l : Path, Rel (Dir src) P = .ok l ∧
        copySymlink t src dst (.ok P) =
          ⟨none, { t with links := t.links ++ [⟨dst, l⟩] }, [Event.readlink src]⟩ ∧
        IsAbs l = false ∧
        resolveLink (Dir src) l = Clean P ∧
        Clean ⟨(Dir src).isAbs, (Dir src).elems ++ l.elems⟩ = Clean P) ∧
    (IsAbs src = false →
      Rel (Dir src) P = .error .rel ∧
      copySymlink t src dst (.ok P) = ⟨some .rel, t, [Event.readlink src]⟩) ∧
    ((copySymlink t src dst (.ok P)).err = none →
      IsAbs src = true ∧
      ∃ l : Path, (copySymlink t src dst (.ok P)).t.links = t.links ++ [⟨dst, l⟩] ∧
        IsAbs l = false ∧ resolveLink (Dir src) l = Clean P) := by
  have hP2 : P.isAbs = true := hP
  by_cases hs : src.isAbs = true
  · obtain ⟨hda, hdn⟩ := Dir_abs_normal src hs
    obtain ⟨l, hl, hla, hres⟩ := Rel_resolve (Dir src) P hda hP2 hdn
    have hcopy : copySymlink t src dst (.ok P) =
        ⟨none, { t with links := t.links ++ [⟨dst, l⟩] }, [Event.readlink src]⟩ := by
      simp [copySymlink, hP, hl]
    have hjoin : Clean ⟨(Dir src).isAbs, (Dir src).elems ++ l.elems⟩ = Clean P := by
      have hla2 : l.isAbs = false := hla
      simpa [resolveLink, hla2] using hres
    refine ⟨fun _ => ⟨l, hl, hcopy, hla, hres, hjoin⟩, fun h => ?_, fun _ => ⟨hs, l, ?_, hla, hres⟩⟩
    · have h2 : src.isAbs = false := h
      rw [hs] at h2
      exact absurd h2 (by decide)
    · rw [hcopy]
  · have hs2 : src.isAbs = false := by simpa using hs
    have hrel : Rel (Dir src) P = .error .rel := by
      have hne : ¬(Clean P = Clean (Dir src)) := by
        intro h
        have := congrArg Path.isAbs h
        simp [Clean, Dir, hP2, hs2] at this
      simp [Rel, hne, Clean, Dir, hP2, hs2]
    have hcopy : copySymlink t src dst (.ok P) = ⟨some .rel, t, [Event.readlink src]⟩ := by
      simp [copySymlink, hP, hrel]
    refine ⟨fun h => absurd h hs, fun _ => ⟨hrel, hcopy⟩, fun h => ?_⟩
    rw [hcopy] at h
    simp at h

/-- The amended C5 at the link `/src/l` with target `/etc/hosts`, copied to `/out/dst/l`, and at
the same link reached through the relative path `src/l`, where nothing is recorded. -/
theorem C5_link_is_relative_to_source_dir_witness :
    (∃ l : Path, Rel (Dir ⟨true, ["src", "l"]⟩) ⟨true, ["etc", "hosts"]⟩ = .ok l ∧
      copySymlink ⟨false, []⟩ ⟨true, ["src", "l"]⟩ ⟨true, ["out", "dst", "l"]⟩
          (.ok ⟨true, ["etc", "hosts"]⟩) =
        ⟨none, { (⟨false, []⟩ : FileCopier) with
            links := (⟨false, []⟩ : FileCopier).links ++ [⟨⟨true, ["out", "dst", "l"]⟩, l⟩] },
          [Event.readlink ⟨true, ["src", "l"]⟩]⟩ ∧
      IsAbs l = false ∧
      resolveLink (Dir ⟨true, ["src", "l"]⟩) l = Clean ⟨true, ["etc", "hosts"]⟩ ∧
      Clean ⟨(Dir ⟨true, ["src", "l"]⟩).isAbs, (Dir ⟨true, ["src", "l"]⟩).elems ++ l.elems⟩ =
        Clean ⟨true, ["etc", "hosts"]⟩) ∧
    (Rel (Dir ⟨false, ["src", "l"]⟩) ⟨true, ["etc", "hosts"]⟩ = .error .rel ∧
      copySymlink ⟨false, []⟩ ⟨false, ["src", "l"]⟩ ⟨true, ["out", "dst", "l"]⟩
          (.ok ⟨true, ["etc", "hosts"]⟩) =
        ⟨some .rel, ⟨false, []⟩, [Event.readlink ⟨false, ["src", "l"]⟩]⟩) :=
  ⟨(C5_link_is_relative_to_source_dir ⟨false, []⟩ ⟨true, ["src", "l"]⟩ ⟨true, ["out", "dst", "l"]⟩
      ⟨true, ["etc", "hosts"]⟩ (by decide)).1 (by decide),
    (C5_link_is_relative_to_source_dir ⟨false, []⟩ ⟨false, ["src", "l"]⟩
      ⟨true, ["out", "dst", "l"]⟩ ⟨true, ["etc", "hosts"]⟩ (by decide)).2.1 (by decide)⟩

/-! ## Hardlink fallback over a sequence of files -/

theorem CopyFile_fallback (t : FileCopier) (c : FileCall)
    (h : t.IsUseHardLinks = false ∨ c.calls.link ≠ none) :
    (CopyFile t c.src c.dst c.isCreateParentDirs c.calls).t.IsUseHardLinks = false ∧
    ((c.isCreateParentDirs = false ∨ c.calls.ensure = none) →
      Event.copyFile c.src c.dst ∈ (CopyFile t c.src c.dst c.isCreateParentDirs c.calls).events ∧
      (CopyFile t c.src c.dst c.isCreateParentDirs c.calls).err = c.calls.copy) ∧
    (∀ e : Err, c.isCreateParentDirs = true → c.calls.ensure = some e →
      (CopyFile t c.src c.dst c.isCreateParentDirs c.calls).err = some e ∧
      ∀ ev ∈ (CopyFile t c.src c.dst c.isCreateParentDirs c.calls).events,
        ev.isCopyFile = false) := by
  unfold CopyFile
  cases ht : t.IsUseHardLinks <;> cases hb : c.isCreateParentDirs <;>
    cases hl : c.calls.link <;> cases hn : c.calls.ensure <;>
    simp_all [Event.isCopyFile]

theorem copyFiles_length : ∀ (files : List FileCall) (t : FileCopier),
    (copyFiles t files).length = files.length
  | [], _ => rfl
  | c :: cs, t => by simp [copyFiles, copyFiles_length cs]

theorem copyFiles_flagOff : ∀ (files : List FileCall) (t : FileCopier),
    t.IsUseHardLinks = false →
    ∀ (i : Nat) (r : Out) (c : FileCall), (copyFiles t files)[i]? = some r → files[i]? = some c →
      (∀ ev ∈ r.events, ev.isLink = false) ∧
      ∃ q : FileCopier, q.IsUseHardLinks = false ∧
        r = CopyFile q c.src c.dst c.isCreateParentDirs c.calls
  | [], _, _, i, r, c, hr, _ => by simp [copyFiles] at hr
  | c0 :: cs, t, ht, 0, r, c, hr, hc => by
    simp only [copyFiles, List.getElem?_cons_zero, Option.some.injEq] at hr hc
    subst hr; subst hc
    exact ⟨(CopyFile_flagOff t _ _ _ _ ht).2, t, ht, rfl⟩
  | c0 :: cs, t, ht, i + 1, r, c, hr, hc => by
    simp only [copyFiles, List.getElem?_cons_succ] at hr hc
    exact copyFiles_flagOff cs _ (CopyFile_flagOff t _ _ _ _ ht).1 i r c hr hc

theorem copyFiles_fallback_aux : ∀ (files : List FileCall) (t : FileCopier) (k : Nat)
    (ck : FileCall), t.IsUseHardLinks = true →
    (∀ (i : Nat) (c : FileCall), i < k → files[i]? = some c → c.calls.link = none) →
    files[k]? = some ck → ck.calls.link ≠ none →
    ∀ (i : Nat) (r : Out) (c : FileCall), (copyFiles t files)[i]? = some r → files[i]? = some c →
      (i < k → r = ⟨none, t, [Event.link c.src c.dst]⟩) ∧
      (k ≤ i →
        r.t.IsUseHardLinks = false ∧
        (k < i → ∀ ev ∈ r.events, ev.isLink = false) ∧
        ((c.isCreateParentDirs = false ∨ c.calls.ensure = none) →
          Event.copyFile c.src c.dst ∈ r.events ∧ r.err = c.calls.copy) ∧
        (∀ e : Err, c.isCreateParentDirs = true → c.calls.ensure = some e →
          r.err = some e ∧ ∀ ev ∈ r.events, ev.isCopyFile = false))
  | [], _, _, _, _, _, hk, _, _, _, _, _, _ => by simp at hk
  | c0 :: cs, t, 0, ck, ht, _, hk, hfail, 0, r, c, hr, hc => by
    simp only [copyFiles, List.getElem?_cons_zero, Option.some.injEq] at hr hc hk
    subst hr; subst hc; subst hk
    have hf := CopyFile_fallback t c0 (Or.inr hfail)
    exact ⟨fun h => absurd h (Nat.lt_irrefl 0), fun _ => ⟨hf.1, fun h => absurd h (Nat.lt_irrefl 0),
      hf.2.1, hf.2.2⟩⟩
  | c0 :: cs, t, 0, ck, ht, _, hk, hfail, i + 1, r, c, hr, hc => by
    simp only [copyFiles, List.getElem?_cons_zero, List.getElem?_cons_succ,
      Option.some.injEq] at hr hc hk
    subst hk
    have hoff := (CopyFile_fallback t c0 (Or.inr hfail)).1
    obtain ⟨hnl, q, hq, hrq⟩ := copyFiles_flagOff cs _ hoff i r c hr hc
    have hf := CopyFile_fallback q c (Or.inl hq)
    rw [← hrq] at hf
    exact ⟨fun h => absurd h (Nat.not_lt_zero _), fun _ => ⟨hf.1, fun _ => hnl, hf.2.1, hf.2.2⟩⟩
  | c0 :: cs, t, k + 1, ck, ht, hbefore, hk, hfail, 0, r, c, hr, hc => by
    simp only [copyFiles, List.getElem?_cons_zero, Option.some.injEq] at hr hc
    subst hr; subst hc
    have hl : c0.calls.link = none := hbefore 0 c0 (Nat.succ_pos k) (by simp)
    refine ⟨fun _ => by simp [CopyFile, ht, hl], fun h => absurd h (by omega)⟩
  | c0 :: cs, t, k + 1, ck, ht, hbefore, hk, hfail, i + 1, r, c, hr, hc => by
    have hl : c0.calls.link = none := hbefore 0 c0 (Nat.succ_pos k) (by simp)
    have h0 : CopyFile t c0.src c0.dst c0.isCreateParentDirs c0.calls =
        ⟨none, t, [Event.link c0.src c0.dst]⟩ := by simp [CopyFile, ht, hl]
    simp only [copyFiles, List.getElem?_cons_succ, h0] at hr hc hk
    have ih := copyFiles_fallback_aux cs t k ck ht
      (fun j cj hj hcj => hbefore (j + 1) cj (by omega) (by simpa using hcj)) hk hfail i r c hr hc
    exact ⟨fun h => ih.1 (by omega), fun h => by
      obtain ⟨a, b, c1, d⟩ := ih.2 (by omega)
      exact ⟨a, fun h2 => b (by omega), c1, d⟩⟩

/-- C3 (counterexample): one file copied with `isCreateParentDirs = true` on a copier with
hardlinks on; `os.Link` fails (file 0 is the first failing link), then `fsutil.EnsureDir` of the
destination's parent fails: `CopyFile` returns that error and `fsutil.CopyFile` is never called,
so file `k = 0` is not replicated by a content copy. -/
theorem C3_counterexample :
    copyFiles ⟨true, []⟩
        [⟨⟨true, ["src", "a"]⟩, ⟨true, ["ro", "out", "a"]⟩, true,
          ⟨some .notExist, some .permission, none⟩⟩] =
      [⟨some .permission, ⟨false, []⟩,
        [Event.link ⟨true, ["src", "a"]⟩ ⟨true, ["ro", "out", "a"]⟩,
          Event.ensureDir ⟨true, ["ro", "out"]⟩]⟩] ∧
    ∀ r ∈ copyFiles ⟨true, []⟩
        [⟨⟨true, ["src", "a"]⟩, ⟨true, ["ro", "out", "a"]⟩, true,
          ⟨some .notExist, some .permission, none⟩⟩],
      ∀ ev ∈ r.events, ev.isCopyFile = false := by
  decide

/-- C3 (amended): for a sequence of `CopyFile` calls on one copier that starts with
`IsUseHardLinks = true`, whose first failing `os.Link` is on file `k`: every file before `k` is
hardlinked by its single system call and leaves the copier unchanged; for file `k` and every file
after it the flag is false after the call, no `os.Link` is attempted on any file after `k`, and
the file goes through the full copy: `fsutil.CopyFile` is called on it and its result returned,
unless `isCreateParentDirs` is set and `fsutil.EnsureDir` of the parent fails, in which case that
error is returned and no content copy is made. The flag is thus true after every file before `k`
and false after every later one: it never goes back to true. -/
theorem C3_hardlink_fallback_is_permanent (t : FileCopier) (files : List FileCall) (k : Nat)
    (ck : FileCall) (ht : t.IsUseHardLinks = true)
    (hbefore : ∀ (i : Nat) (c : FileCall), i < k → files[i]? = some c → c.calls.link = none)
    (hk : files[k]? = some ck) (hfail : ck.calls.link ≠ none) :
    (copyFiles t files).length = files.length ∧
    ∀ (i : Nat) (r : Out) (c : FileCall), (copyFiles t files)[i]? = some r → files[i]? = some c →
      (i < k → r = ⟨none, t, [Event.link c.src c.dst]⟩) ∧
      (k ≤ i →
        r.t.IsUseHardLinks = false ∧
        (k < i → ∀ ev ∈ r.events, ev.isLink = false) ∧
        ((c.isCreateParentDirs = false ∨ c.calls.ensure = none) →
          Event.copyFile c.src c.dst ∈ r.events ∧ r.err = c.calls.copy) ∧
        (∀ e : Err, c.isCreateParentDirs = true → c.calls.ensure = some e →
          r.err = some e ∧ ∀ ev ∈ r.events, ev.isCopyFile = false)) :=
  ⟨copyFiles_length files t, copyFiles_fallback_aux files t k ck ht hbefore hk hfail⟩

/-- The amended C3 on three files whose second hardlink fails (`k = 1`), read at the third
file: no `os.Link`, one `fsutil.CopyFile`, flag false. -/
theorem C3_hardlink_fallback_is_permanent_witness :
    (2 < 1 →
      (⟨none, ⟨false, []⟩, [Event.copyFile ⟨true, ["s", "c"]⟩ ⟨true, ["d", "c"]⟩]⟩ : Out) =
        ⟨none, ⟨true, []⟩, [Event.link ⟨true, ["s", "c"]⟩ ⟨true, ["d", "c"]⟩]⟩) ∧
    (1 ≤ 2 →
      (⟨false, []⟩ : FileCopier).IsUseHardLinks = false ∧
      (1 < 2 → ∀ ev ∈ [Event.copyFile ⟨true, ["s", "c"]⟩ ⟨true, ["d", "c"]⟩],
        ev.isLink = false) ∧
      (((false : Bool) = false ∨ (none : Option Err) = none) →
        Event.copyFile ⟨true, ["s", "c"]⟩ ⟨true, ["d", "c"]⟩ ∈
          [Event.copyFile ⟨true, ["s", "c"]⟩ ⟨true, ["d", "c"]⟩] ∧
        (none : Option Err) = none) ∧
      (∀ e : Err, (false : Bool) = true → (none : Option Err) = some e →
        (none : Option Err) = some e ∧
        ∀ ev ∈ [Event.copyFile ⟨true, ["s", "c"]⟩ ⟨true, ["d", "c"]⟩],
          ev.isCopyFile = false)) :=
  (C3_hardlink_fallback_is_permanent ⟨true, []⟩
    [⟨⟨true, ["s", "a"]⟩, ⟨true, ["d", "a"]⟩, false, ⟨none, none, none⟩⟩,
      ⟨⟨true, ["s", "b"]⟩, ⟨true, ["d", "b"]⟩, false, ⟨some .crossDevice, none, none⟩⟩,
      ⟨⟨true, ["s", "c"]⟩, ⟨true, ["d", "c"]⟩, false, ⟨none, none, none⟩⟩]
    1 ⟨⟨true, ["s", "b"]⟩, ⟨true, ["d", "b"]⟩, false, ⟨some .crossDevice, none, none⟩⟩ rfl
    (by
      intro i c hi hc
      have hi0 : i = 0 := by omega
      subst hi0
      simp only [List.getElem?_cons_zero, Option.some.injEq] at hc
      subst hc
      rfl)
    rfl (by decide)).2 2
    ⟨none, ⟨false, []⟩, [Event.copyFile ⟨true, ["s", "c"]⟩ ⟨true, ["d", "c"]⟩]⟩
    ⟨⟨true, ["s", "c"]⟩, ⟨true, ["d", "c"]⟩, false, ⟨none, none, none⟩⟩ (by decide) rfl

/-- C6 on two pending links, the second of which fails to be created. -/
theorem C6_CreateLinks_one_symlink_per_entry_witness :
    (CreateLinks [⟨⟨true, ["d", "l"]⟩, ⟨false, ["f"]⟩⟩, ⟨⟨true, ["d", "m"]⟩, ⟨false, ["g"]⟩⟩]
        (fun i _ _ => if i = 1 then some .exist else none)).2 =
      [Event.symlink ⟨false, ["f"]⟩ ⟨true, ["d", "l"]⟩,
        Event.symlink ⟨false, ["g"]⟩ ⟨true, ["d", "m"]⟩] :=
  (C6_CreateLinks_one_symlink_per_entry
    [⟨⟨true, ["d", "l"]⟩, ⟨false, ["f"]⟩⟩, ⟨⟨true, ["d", "m"]⟩, ⟨false, ["g"]⟩⟩]
    (fun i _ _ => if i = 1 then some .exist else none)).2.2.2.1

/-- C7 on the listing `a, b` where copying `a` fails: `b` is not touched. -/
theorem C7_copyDir_skips_DS_Store_in_order_witness :
    copyDirLoop ⟨false, []⟩ ⟨true, ["s"]⟩ ⟨true, ["d"]⟩
        (.cons "a" (.file ⟨none, none, some .permission⟩)
          (.cons "b" (.file ⟨none, none, none⟩) .nil)) =
      ⟨some .permission, ⟨false, []⟩,
        [Event.lstat ⟨true, ["s", "a"]⟩,
          Event.copyFile ⟨true, ["s", "a"]⟩ ⟨true, ["d", "a"]⟩]⟩ :=
  (C7_copyDir_skips_DS_Store_in_order ⟨false, []⟩ ⟨true, ["s"]⟩ ⟨true, ["d"]⟩
    (.cons "b" (.file ⟨none, none, none⟩) .nil)).2.2.2 "a" (.file ⟨none, none, some .permission⟩)
    .permission (by decide) (by decide)

/-- C8 on Linux with hardlinks requested: the traversal starts from the caller's state. -/
theorem C8_windows_forces_hardlinks_off_witness :
    ∃ created : List Event,
      (FileCopier.CopyDirOrFile "linux" ⟨true, []⟩ ⟨true, ["s"]⟩ ⟨true, ["d"]⟩
          (.file ⟨none, none, none⟩) (fun _ _ _ => none)).events =
        (copyDirOrFile ⟨true, []⟩ ⟨true, ["s"]⟩ ⟨true, ["d"]⟩ true
          (.file ⟨none, none, none⟩)).events ++ created ∧
      (∀ e ∈ created, e.isSymlink = true) ∧
      (FileCopier.CopyDirOrFile "linux" ⟨true, []⟩ ⟨true, ["s"]⟩ ⟨true, ["d"]⟩
          (.file ⟨none, none, none⟩) (fun _ _ _ => none)).t.IsUseHardLinks =
        (copyDirOrFile ⟨true, []⟩ ⟨true, ["s"]⟩ ⟨true, ["d"]⟩ true
          (.file ⟨none, none, none⟩)).t.IsUseHardLinks :=
  (C8_windows_forces_hardlinks_off ⟨true, []⟩ ⟨true, ["s"]⟩ ⟨true, ["d"]⟩
    (.file ⟨none, none, none⟩) (fun _ _ _ => none)).2.2.2.2.2 "linux" (by decide)

/-- C4 on a directory holding a link and a file that cannot be copied: the traversal fails, so
nothing is created. -/
theorem C4_symlinks_created_only_after_traversal_witness :
    ∃ created : List Event,
      (FileCopier.CopyDirOrFile "linux" ⟨false, []⟩ ⟨true, ["src"]⟩ ⟨true, ["dst"]⟩
          (.dir 0o20000000755 none none
            (.names (.cons "a" (.symlink (.ok ⟨false, ["b"]⟩))
              (.cons "b" (.file ⟨none, none, some .permission⟩) .nil))))
          (fun _ _ _ => none)).events =
        (copyDirOrFile (if "linux" = "windows" then { (⟨false, []⟩ : FileCopier) with
              IsUseHardLinks := false } else ⟨false, []⟩)
          ⟨true, ["src"]⟩ ⟨true, ["dst"]⟩ true
          (.dir 0o20000000755 none none
            (.names (.cons "a" (.symlink (.ok ⟨false, ["b"]⟩))
              (.cons "b" (.file ⟨none, none, some .permission⟩) .nil))))).events ++ created ∧
      created = [] := by
  obtain ⟨created, h1, _, h3⟩ :=
    (C4_symlinks_created_only_after_traversal "linux" ⟨false, []⟩ ⟨true, ["src"]⟩ ⟨true, ["dst"]⟩
      (.dir 0o20000000755 none none
        (.names (.cons "a" (.symlink (.ok ⟨false, ["b"]⟩))
          (.cons "b" (.file ⟨none, none, some .permission⟩) .nil))))
      (fun _ _ _ => none)).2.1
  exact ⟨created, h1, (h3 (by decide)).1⟩

end Fs

namespace Icons

open Fs

theorem foldl_max_le (b : Int) : ∀ (xs : List Int) (a : Int), a ≤ b → (∀ x ∈ xs, x ≤ b) →
    xs.foldl max a ≤ b
  | [], a, ha, _ => by simpa using ha
  | x :: xs, a, ha, h => by
    simp only [List.foldl_cons]
    exact foldl_max_le b xs (max a x) (max_le ha (h x (List.mem_cons_self _ _)))
      (fun y hy => h y (List.mem_cons_of_mem _ hy))

/-- What the loop has computed after running over a list sorted by strictly increasing size. -/
theorem mappingFold_post (found : Icns2PngMapping → Bool) (path : Icns2PngMapping → Path) :
    ∀ (l : List Icns2PngMapping), l.Pairwise (fun a b => a.Size < b.Size) →
      (∀ i ∈ l, 0 ≤ i.Size) →
      (l.foldl (mappingStep found path) ⟨emptyPath, 0, [], [24, 96]⟩).maxSize =
          ((l.filter found).map (fun i => i.Size)).foldl max 0 ∧
      ((∀ i ∈ l, found i = false) →
        (l.foldl (mappingStep found path) ⟨emptyPath, 0, [], [24, 96]⟩).maxIconPath = emptyPath) ∧
      ((∃ i ∈ l, found i = true) → ∃ i ∈ l, found i = true ∧
        i.Size = (l.foldl (mappingStep found path) ⟨emptyPath, 0, [], [24, 96]⟩).maxSize ∧
        (l.foldl (mappingStep found path) ⟨emptyPath, 0, [], [24, 96]⟩).maxIconPath = path i) ∧
      (l.foldl (mappingStep found path) ⟨emptyPath, 0, [], [24, 96]⟩).sizeList =
        [24, 96] ++ (l.filter (fun i => !found i)).map (fun i => i.Size) ∧
      (l.foldl (mappingStep found path) ⟨emptyPath, 0, [], [24, 96]⟩).result =
        (l.filter found).map (fun i => ⟨path i, i.Size⟩) := by
  intro l
  induction l using List.reverseRecOn with
  | nil => intro _ _; simp
  | append_singleton l x ih =>
    intro hs h0
    rw [List.pairwise_append] at hs
    obtain ⟨hsl, _, hlt⟩ := hs
    obtain ⟨i1, i2, i3, i4, i5⟩ := ih hsl (fun i hi => h0 i (List.mem_append_left _ hi))
    have hx0 : 0 ≤ x.Size := h0 x (by simp)
    have hle : ((l.filter found).map (fun i => i.Size)).foldl max 0 ≤ x.Size := by
      apply foldl_max_le _ _ _ hx0
      intro y hy
      obtain ⟨i, hi, rfl⟩ := List.mem_map.1 hy
      exact le_of_lt (hlt i (List.mem_filter.1 hi).1 x (by simp))
    cases hf : found x
    · have hstep : mappingStep found path (l.foldl (mappingStep found path)
          ⟨emptyPath, 0, [], [24, 96]⟩) x =
          { (l.foldl (mappingStep found path) ⟨emptyPath, 0, [], [24, 96]⟩) with
            sizeList := (l.foldl (mappingStep found path) ⟨emptyPath, 0, [], [24, 96]⟩).sizeList ++
              [x.Size] } := by
        simp [mappingStep, hf]
      simp only [List.foldl_append, List.foldl_cons, List.foldl_nil, hstep, List.filter_append,
        List.filter_cons, List.filter_nil, hf]
      refine ⟨by simpa using i1, ?_, ?_, ?_, by simpa using i5⟩
      · intro hnone
        exact i2 (fun i hi => hnone i (List.mem_append_left _ hi))
      · rintro ⟨i, hi, hfi⟩
        rcases List.mem_append.1 hi with hi | hi
        · obtain ⟨j, hj, hj1, hj2, hj3⟩ := i3 ⟨i, hi, hfi⟩
          exact ⟨j, List.mem_append_left _ hj, hj1, hj2, hj3⟩
        · simp at hi
          subst hi
          rw [hf] at hfi
          exact absurd hfi (by decide)
      · simp [i4]
    · have hstep : mappingStep found path (l.foldl (mappingStep found path)
          ⟨emptyPath, 0, [], [24, 96]⟩) x =
          { maxIconPath := path x, maxSize := x.Size,
            result := (l.foldl (mappingStep found path) ⟨emptyPath, 0, [], [24, 96]⟩).result ++
              [⟨path x, x.Size⟩],
            sizeList := (l.foldl (mappingStep found path) ⟨emptyPath, 0, [], [24, 96]⟩).sizeList } := by
        simp [mappingStep, hf]
      simp only [List.foldl_append, List.foldl_cons, List.foldl_nil, hstep, List.filter_append,
        List.filter_cons, List.filter_nil, hf]
      refine ⟨?_, ?_, ?_, by simpa using i4, by simp [i5]⟩
      · simp [List.foldl_append, max_eq_right hle]
      · intro hnone
        have := hnone x (by simp)
        rw [hf] at this
        exact absurd this (by decide)
      · intro _
        exact ⟨x, by simp, hf, rfl, rfl⟩

/-- C10: for every choice `found` of the mapping entries present in the converter output (and
every way `path` of naming their files), after the mapping loop `maxSize` is the maximum `Size`
among the found entries, 0 if there is none; `maxIconPath` is the path of the found entry of that
size, and the empty string if there is none; `sizeList` is `[24, 96]` followed by the sizes of
the entries not found and `result` lists the found ones, so that found and not-found entries
partition the mapping list. Both branches of `ConvertIcnsToPng` run this loop. -/
theorem C10_mapping_loop_max_and_partition (found : Icns2PngMapping → Bool)
    (path : Icns2PngMapping → Path) :
    (mappingLoop found path).maxSize =
      ((icns2PngMappingList.filter found).map (fun i => i.Size)).foldl max 0 ∧
    ((∀ i ∈ icns2PngMappingList, found i = false) →
      (mappingLoop found path).maxSize = 0 ∧ (mappingLoop found path).maxIconPath = emptyPath) ∧
    ((∃ i ∈ icns2PngMappingList, found i = true) →
      ∃ i ∈ icns2PngMappingList, found i = true ∧ i.Size = (mappingLoop found path).maxSize ∧
        (mappingLoop found path).maxIconPath = path i) ∧
    (∀ i ∈ icns2PngMappingList, ∀ j ∈ icns2PngMappingList, i.Size = j.Size → i = j) ∧
    (mappingLoop found path).sizeList =
      [24, 96] ++ (icns2PngMappingList.filter (fun i => !found i)).map (fun i => i.Size) ∧
    (mappingLoop found path).result =
      (icns2PngMappingList.filter found).map (fun i => ⟨path i, i.Size⟩) ∧
    (icns2PngMappingList.filter found ++
      icns2PngMappingList.filter (fun i => !found i)).Perm icns2PngMappingList ∧
    (∀ (goos forceEnv : String) (tempDir : Path) (namePrefix : String)
        (iconFiles : List String) (output : String),
      ConvertIcnsToPng.mapping goos forceEnv tempDir namePrefix iconFiles output =
          mappingLoop (fun item => contains iconFiles (iconutilName item.Size))
            (fun item => Join tempDir (iconutilName item.Size)) ∨
        ConvertIcnsToPng.mapping goos forceEnv tempDir namePrefix iconFiles output =
          mappingLoop (fun item => stringsContains output item.Id)
            (fun item => Join tempDir (icns2pngName namePrefix item.Size))) := by
  have hsorted : icns2PngMappingList.Pairwise (fun a b => a.Size < b.Size) := by
    simp [icns2PngMappingList]
  have hpos : ∀ i ∈ icns2PngMappingList, 0 ≤ i.Size := by
    simp [icns2PngMappingList]
  have hloop : mappingLoop found path =
      icns2PngMappingList.foldl (mappingStep found path) ⟨emptyPath, 0, [], [24, 96]⟩ := rfl
  obtain ⟨h1, h2, h3, h4, h5⟩ := mappingFold_post found path icns2PngMappingList hsorted hpos
  rw [← hloop] at h1 h2 h3 h4 h5
  refine ⟨h1, ?_, h3, ?_, h4, h5, List.filter_append_perm _ _, ?_⟩
  · intro hnone
    refine ⟨?_, h2 hnone⟩
    have : icns2PngMappingList.filter found = [] := by
      rw [List.filter_eq_nil_iff]
      intro i hi
      simp [hnone i hi]
    rw [h1, this]
    rfl
  · decide
  · intro goos forceEnv tempDir namePrefix iconFiles output
    unfold ConvertIcnsToPng.mapping
    split
    · exact Or.inl rfl
    · exact Or.inr rfl

/-- C10 when only `is32` is found by `icns2png`. -/
theorem C10_mapping_loop_max_and_partition_witness :
    ∃ i ∈ icns2PngMappingList, stringsContains "is32: 16x16x32" i.Id = true ∧
      i.Size = (mappingLoop (fun item => stringsContains "is32: 16x16x32" item.Id)
        (fun item => Join ⟨true, ["tmp"]⟩ (icns2pngName "app" item.Size))).maxSize ∧
      (mappingLoop (fun item => stringsContains "is32: 16x16x32" item.Id)
        (fun item => Join ⟨true, ["tmp"]⟩ (icns2pngName "app" item.Size))).maxIconPath =
        Join ⟨true, ["tmp"]⟩ (icns2pngName "app" i.Size) :=
  (C10_mapping_loop_max_and_partition (fun item => stringsContains "is32: 16x16x32" item.Id)
    (fun item => Join ⟨true, ["tmp"]⟩ (icns2pngName "app" item.Size))).2.2.1
    ⟨⟨"is32", 16⟩, by decide, by decide⟩

theorem resize_counter (save : Int → Option Err) : ∀ (launched : List Int) (w : WaitGroup),
    (launched.foldl (fun w size => (resizeImage (save size) w).2) w).counter =
      w.counter - launched.length
  | [], w => by simp
  | size :: rest, w => by
    simp only [List.foldl_cons, List.length_cons]
    rw [resize_counter save rest]
    simp only [resizeImage, WaitGroup.Done, WaitGroup.Add]
    push_cast
    ring

theorem loop_launched (fmt : Int → Int → Path) (maxSize : Int) :
    ∀ (sizeList : List Int) (result : List IconInfo),
      ((multiResizeImage.loop fmt maxSize sizeList result).2.length ≤ sizeList.length) ∧
      ((∃ s ∈ sizeList, s > maxSize) →
        (multiResizeImage.loop fmt maxSize sizeList result).2.length < sizeList.length) ∧
      ((∀ s ∈ sizeList, s ≤ maxSize) →
        (multiResizeImage.loop fmt maxSize sizeList result).2.length = sizeList.length)
  | [], result => by simp [multiResizeImage.loop]
  | size :: rest, result => by
    obtain ⟨ih1, ih2, ih3⟩ := loop_launched fmt maxSize rest (result ++ [⟨fmt size size, size⟩])
    by_cases h : size > maxSize
    · simp only [multiResizeImage.loop, h, if_true, List.length_nil, List.length_cons]
      refine ⟨by omega, fun _ => by omega, fun hall => ?_⟩
      have := hall size (List.mem_cons_self _ _)
      omega
    · simp only [multiResizeImage.loop, h, if_false, List.length_cons]
      refine ⟨by omega, ?_, ?_⟩
      · rintro ⟨s, hs, hgt⟩
        rcases List.mem_cons.1 hs with hs | hs
        · subst hs; exact absurd hgt h
        · have := ih2 ⟨s, hs, hgt⟩
          omega
      · intro hall
        have := ih3 (fun s hs => hall s (List.mem_cons_of_mem _ hs))
        omega

/-- C9 (evaluation of the code): an icon set in which only the 16-pixel image `is32` is found
gives `maxSize = 16` and the size list `[24, 96, 32, 48, 64, 128, 256, 512]`; `multiResizeImage`
adds 8 to the wait group, leaves the loop at the first size (24 > 16) without starting any
goroutine, and `Wait` blocks with the counter at 8. In general, with the image loaded, the call
blocks on a positive counter as soon as one size of the list exceeds `maxSize`, and returns nil
when none does. -/
theorem C9_wait_group_never_released :
    (mappingLoop (fun item => decide (item.Id = "is32"))
        (fun item => Join ⟨true, ["tmp"]⟩ (icns2pngName "app" item.Size))).maxSize = 16 ∧
    (mappingLoop (fun item => decide (item.Id = "is32"))
        (fun item => Join ⟨true, ["tmp"]⟩ (icns2pngName "app" item.Size))).sizeList =
      [24, 96, 32, 48, 64, 128, 256, 512] ∧
    multiResizeImage.loop (fun w _ => Join ⟨true, ["tmp"]⟩ (iconutilName w)) 16
        [24, 96, 32, 48, 64, 128, 256, 512] [] = ([], []) ∧
    multiResizeImage none (fun _ => none) (fun w _ => Join ⟨true, ["tmp"]⟩ (iconutilName w)) []
        [24, 96, 32, 48, 64, 128, 256, 512] 16 = .blocked 8 [] ∧
    multiResizeImage none (fun _ => none) (fun w _ => Join ⟨true, ["tmp"]⟩ (iconutilName w)) []
        [24, 96] 16 = .blocked 2 [] ∧
    (∀ (save : Int → Option Err) (fmt : Int → Int → Path) (result : List IconInfo)
        (sizeList : List Int) (maxSize : Int),
      ((∃ s ∈ sizeList, s > maxSize) →
        ∃ (c : Int) (r : List IconInfo), 0 < c ∧
          multiResizeImage none save fmt result sizeList maxSize = .blocked c r) ∧
      ((∀ s ∈ sizeList, s ≤ maxSize) →
        ∃ r : List IconInfo,
          multiResizeImage none save fmt result sizeList maxSize = .returned none r)) := by
  refine ⟨by decide, by decide, by decide, by decide, by decide, ?_⟩
  intro save fmt result sizeList maxSize
  obtain ⟨_, h2, h3⟩ := loop_launched fmt maxSize sizeList result
  have hc := resize_counter save (multiResizeImage.loop fmt maxSize sizeList result).2
    (WaitGroup.Add ⟨0⟩ (sizeList.length : Int))
  simp only [WaitGroup.Add, zero_add] at hc
  constructor
  · intro hex
    have hlt := h2 hex
    have hpos : 0 < (sizeList.length : Int) -
        ((multiResizeImage.loop fmt maxSize sizeList result).2.length : Int) := by omega
    refine ⟨_, (multiResizeImage.loop fmt maxSize sizeList result).1, hpos, ?_⟩
    simp only [multiResizeImage, WaitGroup.Add, zero_add, hc]
    rw [if_neg (by omega)]
  · intro hall
    have heq := h3 hall
    refine ⟨(multiResizeImage.loop fmt maxSize sizeList result).1, ?_⟩
    simp only [multiResizeImage, WaitGroup.Add, zero_add, hc]
    rw [if_pos (by omega)]

end Icons
